import Mathlib

/-!
Shallow embedding of the fetch-governance and caching core of the
poe-flip-tool backend (`src/backend/rate_limiter.py`,
`src/backend/trade_logic.py`, `src/backend/persistence.py`).

Modelling conventions:
* Wall-clock instants and durations (`time.time()`, `datetime.utcnow()`)
  are rationals (seconds).  ISO-8601 timestamp strings stored in SQLite
  compare chronologically, so the TEXT comparisons in the SQL layer are
  modelled as comparisons on the rational timestamps.
* Python strings are modelled as `List Char`; the handful of string
  operations the code uses (`split`, `strip`, `lower`, `int(...)`) are
  re-implemented structurally below.  (`int(...)` edge cases such as
  underscore separators or non-ASCII digits are not modelled.)
* Fallible Python code (raising constructors, `try/except`) is modelled
  with `Option`/explicit raised-flags.
* Floating point: the Python code computes rates, averages and the
  even-stride index `int(i * (len/maxPoints))` in IEEE doubles; it is
  modelled here in exact rational arithmetic, with the stride index as
  exact floor division.
-/

namespace PoeFlip

/-- Python strings, modelled as their character lists. -/
abbrev Chars := List Char

/-- Python `str.split(sep)` for a one-character separator:
`"a,,b".split(",") = ["a","","b"]`, `"".split(",") = [""]`. -/
def pySplit (sep : Char) : Chars → List Chars
  | [] => [[]]
  | c :: cs =>
    if c = sep then [] :: pySplit sep cs
    else
      match pySplit sep cs with
      | [] => [[c]]
      | t :: ts => (c :: t) :: ts

/-- Python `str.strip()` (whitespace at both ends). -/
def pyStrip (s : Chars) : Chars :=
  ((s.dropWhile Char.isWhitespace).reverse.dropWhile Char.isWhitespace).reverse

/-- Digit-string accumulator used by `pyInt?`. -/
def digitsAux : Chars → ℕ → Option ℕ
  | [], acc => some acc
  | c :: cs, acc =>
    if c.isDigit then digitsAux cs (acc * 10 + (c.toNat - '0'.toNat)) else none

/-- Python `int(s)` on a string: strips whitespace, allows one sign,
then decimal digits; anything else raises `ValueError` (here: `none`). -/
def pyInt? (s : Chars) : Option Int :=
  match pyStrip s with
  | [] => none
  | '+' :: rest =>
    if rest = [] then none else (digitsAux rest 0).map Int.ofNat
  | '-' :: rest =>
    if rest = [] then none else (digitsAux rest 0).map (fun n => -(n : Int))
  | t => (digitsAux t 0).map Int.ofNat

/-- Python `a or b` on two `str`-or-`None` values: the empty string is
falsy and falls through to `b`. -/
def pyOrChars (a b : Option Chars) : Option Chars :=
  match a with
  | some s => if s = [] then b else some s
  | none => b

/-- `str.lower()`. -/
def lowerChars (s : Chars) : Chars := s.map Char.toLower

/-!  ## Rate Governor (`src/backend/rate_limiter.py`)  -/

/-- `RuleState` dataclass: one parsed `current:limit:resetSeconds` triple. -/
structure RuleState where
  name : Chars
  current : Int
  limit : Int
  reset_s : Int
deriving Repr, DecidableEq

/-- `RuleState.ratio` property: `current / limit`, `0.0` when `limit <= 0`. -/
def RuleState.ratio (st : RuleState) : ℚ :=
  if st.limit ≤ 0 then 0 else (st.current : ℚ) / (st.limit : ℚ)

/-- `_parse_state_header`: split the raw header on `","`, strip each part,
skip empties, keep only parts that split on `":"` into exactly three
`int(...)`-parseable pieces. -/
def parse_state_header (name : Chars) (raw : Chars) : List RuleState :=
  (pySplit ',' raw).filterMap (fun part =>
    let p := pyStrip part
    if p = [] then none
    else
      match pySplit ':' p with
      | [a, b, c] =>
        match pyInt? a, pyInt? b, pyInt? c with
        | some cu, some li, some re => some ⟨name, cu, li, re⟩
        | _, _, _ => none
      | _ => none)

/-- `RateLimiter` mutable state (the lock is not modelled; every
operation is atomic here).  `soft_ratio`/`soft_sleep_factor` are the
env-configurable thresholds (defaults 0.8 and 0.05). -/
structure GovState where
  block_until : ℚ
  soft_delay_until : ℚ
  last_rules : List RuleState
  soft_ratio : ℚ
  soft_sleep_factor : ℚ
deriving Repr, DecidableEq

/-- `RateLimiter.__init__` with default env configuration. -/
def govInit : GovState := ⟨0, 0, [], 0.8, 0.05⟩

/-- Header dictionary: association list of (name, value); `.get` is the
first match (`none` when absent). -/
def headerGet (hs : List (Chars × Chars)) (k : Chars) : Option Chars :=
  (hs.find? (fun p => p.1 == k)).map (·.2)

def xRateLimitUC : Chars := "X-Rate-Limit-".data
def stateSufUC : Chars := "-State".data
def xRateLimitLC : Chars := "x-rate-limit-".data
def stateSufLC : Chars := "-state".data
def retryAfterUC : Chars := "Retry-After".data
def retryAfterLC : Chars := "retry-after".data
def rulesHdrUC : Chars := "X-Rate-Limit-Rules".data
def rulesHdrLC : Chars := "x-rate-limit-rules".data
def ipName : Chars := "Ip".data
def accountName : Chars := "Account".data

/-- Hard-block pass of `on_response` over one parsed header: for each
triple with `current >= limit and reset_s > 0`, raise `block_until` to
`now + reset_s` when that is larger. -/
def hardUpdate (now : ℚ) : ℚ → List RuleState → ℚ
  | bu, [] => bu
  | bu, st :: tl =>
    hardUpdate now
      (if st.limit ≤ st.current ∧ 0 < st.reset_s then
        if bu < now + (st.reset_s : ℚ) then now + (st.reset_s : ℚ) else bu
      else bu) tl

/-- The `Retry-After` pass of `on_response`: a truthy header parsing to
a positive integer raises `block_until` to `now + ra` via `max`. -/
def retryAfterBlock (bu now : ℚ) (headers : List (Chars × Chars)) : ℚ :=
  match pyOrChars (headerGet headers retryAfterUC) (headerGet headers retryAfterLC) with
  | some s =>
    if s = [] then bu
    else
      match pyInt? s with
      | some ra => if 0 < ra then max bu (now + (ra : ℚ)) else bu
      | none => bu
  | none => bu

/-- The per-rule loop of `on_response`, parsing side: for each candidate
rule name look up `X-Rate-Limit-<rule>-State` (or its lowercase twin),
skip missing/empty (falsy) headers, and parse the rest.  The loop in the
source interleaves extending `_last_rules` with the hard-block update;
since parsing never reads the block time, it is split here into this
pure collection pass and a fold of `hardUpdate` over its chunks. -/
def collectParsed (headers : List (Chars × Chars)) : List Chars → List (List RuleState)
  | [] => []
  | rule :: rest =>
    let sh := pyOrChars (headerGet headers (xRateLimitUC ++ rule ++ stateSufUC))
                        (headerGet headers (xRateLimitLC ++ lowerChars rule ++ stateSufLC))
    match sh with
    | some raw =>
      if raw = [] then collectParsed headers rest
      else parse_state_header rule raw :: collectParsed headers rest
    | none => collectParsed headers rest

/-- Soft-throttle pass of `on_response` over the accumulated rules:
skip rules with `reset_s <= 0 or limit <= 0`; for rules with
`ratio >= soft_ratio and current < limit` take the max of
`min(max(reset_s * soft_sleep_factor, 0.2), 3.0)`. -/
def softSleepCalc (soft_ratio soft_sleep_factor : ℚ) : ℚ → List RuleState → ℚ
  | acc, [] => acc
  | acc, st :: tl =>
    softSleepCalc soft_ratio soft_sleep_factor
      (if st.reset_s ≤ 0 ∨ st.limit ≤ 0 then acc
       else if soft_ratio ≤ st.ratio ∧ st.current < st.limit then
         max acc (min (max ((st.reset_s : ℚ) * soft_sleep_factor) 0.2) 3)
       else acc) tl

/-- The candidate rule-name list: names parsed from `X-Rate-Limit-Rules`
(split, strip, drop empties), then `"Ip"` and `"Account"` appended when
absent. -/
def ruleNames (headers : List (Chars × Chars)) : List Chars :=
  let raw := pyOrChars (headerGet headers rulesHdrUC) (headerGet headers rulesHdrLC)
  let base :=
    match raw with
    | some r => if r = [] then [] else ((pySplit ',' r).map pyStrip).filter (· ≠ [])
    | none => []
  let base := if base.contains ipName then base else base ++ [ipName]
  if base.contains accountName then base else base ++ [accountName]

/-- `RateLimiter.on_response(headers)`.  The code first zeroes
`_soft_delay_until` and `_last_rules` and then recomputes both; the
final values are written directly here. -/
def on_response (g : GovState) (now : ℚ) (headers : List (Chars × Chars)) : GovState :=
  let bu1 := retryAfterBlock g.block_until now headers
  let chunks := collectParsed headers (ruleNames headers)
  let last_rules := chunks.flatten
  let bu2 := chunks.foldl (hardUpdate now) bu1
  let ss := softSleepCalc g.soft_ratio g.soft_sleep_factor 0 last_rules
  { g with
    block_until := bu2
    last_rules := last_rules
    soft_delay_until := if 0 < ss then now + ss else 0 }

/-- `RateLimiter.blocked`: `time.time() < _block_until`. -/
def blocked (g : GovState) (now : ℚ) : Prop := now < g.block_until

instance (g : GovState) (now : ℚ) : Decidable (blocked g now) :=
  inferInstanceAs (Decidable (now < g.block_until))

/-- `RateLimiter.block_remaining`: `max(0, _block_until - time.time())`. -/
def block_remaining (g : GovState) (now : ℚ) : ℚ := max 0 (g.block_until - now)

/-!  ## Listings, pair keys, TTL cache (`trade_logic.py`, `persistence.py`)  -/

/-- `models.ListingSummary` (pydantic); rates and amounts as rationals. -/
structure ListingSummary where
  rate : ℚ
  have_currency : Chars
  have_amount : ℚ
  want_currency : Chars
  want_amount : ℚ
  stock : Option Int
  account_name : Option Chars
  whisper : Option Chars
  indexed : Option Chars
deriving Repr, DecidableEq

/-- The composite dict key `(league, have, want)` used by `TradeCache`
and `HistoricalCache` (`have`/`want` are reserved words in Lean, hence
the `_cur` suffix). -/
structure PairKey where
  league : Chars
  have_cur : Chars
  want_cur : Chars
deriving Repr, DecidableEq

/-- `CacheEntry` dataclass: all three fields are required (no dataclass
defaults). -/
structure CacheEntry where
  data : List ListingSummary
  expires_at : ℚ
  fetched_at : ℚ
deriving Repr, DecidableEq

/-- One row of the SQLite `cache_entries` table (primary key = the pair
key; `listings_json` round-trips the listing list, modelled directly). -/
structure CacheRow where
  key : PairKey
  listings : List ListingSummary
  expires_at : ℚ
  created_at : ℚ
deriving Repr, DecidableEq

/-- Stable insertion sort by a rational key (the SQL `ORDER BY ... ASC`). -/
def insertByKey {α : Type} (f : α → ℚ) (x : α) : List α → List α
  | [] => [x]
  | y :: ys => if f x ≤ f y then x :: y :: ys else y :: insertByKey f x ys

def sortByKey {α : Type} (f : α → ℚ) (l : List α) : List α := l.foldr (insertByKey f) []

/-- `DatabasePersistence.load_cache_entries`: all rows with
`expires_at > now`, ordered by `expires_at` ascending, as
`key ↦ (listings, expires_at)`. -/
def load_cache_entries (table : List CacheRow) (now : ℚ) :
    List (PairKey × List ListingSummary × ℚ) :=
  (sortByKey (fun r => r.expires_at) (table.filter (fun r => decide (now < r.expires_at)))).map
    (fun r => (r.key, r.listings, r.expires_at))

/-- `DatabasePersistence.cleanup_expired_cache`:
`DELETE FROM cache_entries WHERE expires_at <= now`. -/
def cleanup_expired_cache (table : List CacheRow) (now : ℚ) : List CacheRow :=
  table.filter (fun r => decide (now < r.expires_at))

/-- The constructor call `CacheEntry(data=listings, expires_at=expires_at)`
at src/backend/trade_logic.py:374: the dataclass field `fetched_at` has no
default, so this call raises `TypeError` instead of building an entry. -/
def cacheEntryFromLoad (_data : List ListingSummary) (_expires_at : ℚ) :
    Except Chars CacheEntry :=
  .error ("TypeError: CacheEntry.__init__ missing required argument fetched_at".data)

/-- The in-memory `TradeCache._store` dict. -/
abbrev CacheStore := List (PairKey × CacheEntry)

def storeLookup (s : CacheStore) (k : PairKey) : Option CacheEntry :=
  (s.find? (fun p => decide (p.1 = k))).map (·.2)

/-- The per-row loop body of `TradeCache._load_from_db`: rebuild the
`ListingSummary` objects (an exact round-trip of `save_cache_entry`'s
serialization, modelled as the identity) and call the `CacheEntry`
constructor.  Returns the store entries assigned before any raise, and
whether an exception was raised. -/
def rebuildLoop : List (PairKey × List ListingSummary × ℚ) → CacheStore × Bool
  | [] => ([], false)
  | (k, ls, exp) :: rest =>
    match cacheEntryFromLoad ls exp with
    | .error _ => ([], true)
    | .ok e =>
      let tail := rebuildLoop rest
      ((k, e) :: tail.1, tail.2)

/-- `TradeCache._load_from_db`: load the non-expired rows, rebuild the
in-memory store, then `db.cleanup_expired_cache()`.  Everything sits in
one `try/except Exception` block, so when the rebuild raises, the rows
already assigned stay, the exception is logged-and-swallowed, and the
cleanup never runs.  Returns (in-memory store, durable table after the
call). -/
def tradeCache_load_from_db (table : List CacheRow) (now : ℚ) :
    CacheStore × List CacheRow :=
  let res := rebuildLoop (load_cache_entries table now)
  if res.2 then (res.1, table) else (res.1, cleanup_expired_cache table now)

/-- `TradeCache.get`: a hit needs an entry with `now < expires_at`; an
expired entry is a miss (absence). -/
def cache_get (s : CacheStore) (k : PairKey) (now : ℚ) :
    Option (List ListingSummary × ℚ) :=
  match storeLookup s k with
  | some e => if now < e.expires_at then some (e.data, e.fetched_at) else none
  | none => none

/-- `DatabasePersistence.save_cache_entry`: `INSERT OR REPLACE` keyed by
the pair. -/
def save_cache_entry (table : List CacheRow) (k : PairKey)
    (ls : List ListingSummary) (expires_at created_at : ℚ) : List CacheRow :=
  table.filter (fun r => decide (r.key ≠ k)) ++ [⟨k, ls, expires_at, created_at⟩]

/-- `TradeCache.set`: replace the entry wholesale with
`expires_at = now + ttl` and persist it.  (`datetime.utcnow()` is called
twice a few microseconds apart in the source — once for the
`fetched_at` default, once inside `set` for `expires_at`; both are the
single instant `now` here.)  Dict replacement is modelled as
remove-then-append; only lookups are observed. -/
def cache_set (s : CacheStore) (table : List CacheRow) (ttl : ℚ) (k : PairKey)
    (data : List ListingSummary) (fetched_at now : ℚ) : CacheStore × List CacheRow :=
  let expires_at := now + ttl
  (s.filter (fun p => decide (p.1 ≠ k)) ++ [(k, ⟨data, expires_at, fetched_at⟩)],
   save_cache_entry table k data expires_at now)

/-- `TradeCache.invalidate`. -/
def cache_invalidate (s : CacheStore) (k : PairKey) : CacheStore :=
  s.filter (fun p => decide (p.1 ≠ k))

/-!  ## Fetch orchestrator (`trade_logic.py`)  -/

/-- `(listings, was_cached, fetched_at)` result triple of the two fetch
entry points. -/
structure FetchOut where
  listings : Option (List ListingSummary)
  wasCached : Bool
  fetchedAt : Option ℚ
deriving Repr, DecidableEq

/-- The mutable state a fetch call touches: in-memory cache, durable
`cache_entries` table, Governor. -/
structure Sys where
  store : CacheStore
  table : List CacheRow
  gov : GovState
deriving Repr, DecidableEq

/-- One `_post_exchange` attempt followed by
`summarize_exchange_json(raw, top_n=20)`, abstracted as an oracle: it
transforms the Governor state (`wait_before_request`, then
`on_response` on whatever headers came back), consumes wall-clock time,
and yields the summarized listing set when the response was truthy
(`none` = 429 / non-200 / timeout / falsy body).  The exponential
back-off sleep between failed attempts is absorbed into the next
attempt's clock advance. -/
abbrev PostFn := GovState → ℚ → GovState × ℚ × Option (List ListingSummary)

/-- The shared retry loop `for attempt in range(retries + 1)` of both
fetch entry points, with fuel = attempts remaining.  On success the full
20-listing set is cached and the `top_n` slice returned. -/
def fetchAttempts (post : PostFn) (ttl : ℚ) (k : PairKey) (topN : ℕ) :
    ℕ → Sys → ℚ → Sys × FetchOut
  | 0, sys, _now => (sys, ⟨none, false, none⟩)
  | n + 1, sys, now =>
    let r := post sys.gov now
    let sys1 : Sys := { sys with gov := r.1 }
    match r.2.2 with
    | some listings =>
      let fetched_at := r.2.1
      let st := cache_set sys1.store sys1.table ttl k listings fetched_at fetched_at
      ({ sys1 with store := st.1, table := st.2 },
       ⟨some (listings.take topN), false, some fetched_at⟩)
    | none => fetchAttempts post ttl k topN n sys1 r.2.1

/-- `fetch_listings_with_cache`: serve the `top_n` slice of an unexpired
cache entry (`was_cached = True`), else run the retry loop. -/
def fetch_listings_with_cache (post : PostFn) (ttl : ℚ) (k : PairKey) (topN : ℕ)
    (retries : ℕ) (sys : Sys) (now : ℚ) : Sys × FetchOut :=
  match cache_get sys.store k now with
  | some hit => (sys, ⟨some (hit.1.take topN), true, some hit.2⟩)
  | none => fetchAttempts post ttl k topN (retries + 1) sys now

/-- `fetch_listings_force`: `cache.invalidate(...)` unconditionally,
then the same retry loop. -/
def fetch_listings_force (post : PostFn) (ttl : ℚ) (k : PairKey) (topN : ℕ)
    (retries : ℕ) (sys : Sys) (now : ℚ) : Sys × FetchOut :=
  fetchAttempts post ttl k topN (retries + 1)
    { sys with store := cache_invalidate sys.store k } now

/-!  ## History store (`HistoricalCache`, `price_snapshots` table)  -/

/-- `PriceSnapshot` dataclass. -/
structure PriceSnapshot where
  timestamp : ℚ
  best_rate : ℚ
  avg_rate : ℚ
  median_rate : ℚ
  listing_count : ℕ
deriving Repr, DecidableEq

/-- The in-memory `HistoricalCache._history` dict. -/
abbrev HistMap := List (PairKey × List PriceSnapshot)

/-- The SQLite `price_snapshots` table, rows in insertion order. -/
abbrev SnapTable := List (PairKey × PriceSnapshot)

/-- `self._history.get(key, [])`. -/
def histGet (h : HistMap) (k : PairKey) : List PriceSnapshot :=
  match h.find? (fun p => decide (p.1 = k)) with
  | some p => p.2
  | none => []

/-- `self._history[key].append(snapshot)` (creating the key if absent). -/
def histAppend (h : HistMap) (k : PairKey) (s : PriceSnapshot) : HistMap :=
  if h.any (fun p => decide (p.1 = k)) then
    h.map (fun p => if p.1 = k then (p.1, p.2 ++ [s]) else p)
  else h ++ [(k, [s])]

def insertRat (x : ℚ) : List ℚ → List ℚ
  | [] => [x]
  | y :: ys => if x ≤ y then x :: y :: ys else y :: insertRat x ys

def sortRats (l : List ℚ) : List ℚ := l.foldr insertRat []

/-- `statistics.median`: sort; odd length → middle element, even length
→ mean of the two middle elements.  (Python raises on an empty list;
every call site below guards non-emptiness, the `getD` default is never
reached.) -/
def pyMedian (l : List ℚ) : ℚ :=
  let s := sortRats l
  let n := s.length
  if n % 2 = 1 then s.getD (n / 2) 0
  else (s.getD (n / 2 - 1) 0 + s.getD (n / 2) 0) / 2

/-- `min(...)` / `max(...)` of a non-empty Python list (0 junk on `[]`,
never reached at the call sites). -/
def pyMin : List ℚ → ℚ
  | [] => 0
  | x :: xs => xs.foldl min x

def pyMax : List ℚ → ℚ
  | [] => 0
  | x :: xs => xs.foldl max x

/-- The row `save_snapshot` compares against:
`SELECT ... ORDER BY timestamp DESC LIMIT 1` for the pair — a
maximal-timestamp row, the most recently inserted one among ties
(SQLite leaves the tie unspecified; the theorems below only apply this
in states where the choice cannot matter). -/
def lastRowByTs (t : SnapTable) (k : PairKey) : Option PriceSnapshot :=
  (t.filter (fun p => decide (p.1 = k))).foldl
    (fun acc p =>
      match acc with
      | none => some p.2
      | some q => if q.timestamp ≤ p.2.timestamp then some p.2 else some q) none

/-- `DatabasePersistence.save_snapshot`: skip (return the table
unchanged) when the pair's latest row has the same median within `1e-6`
and lies within 60 seconds (absolute difference), else insert. -/
def save_snapshot (t : SnapTable) (k : PairKey) (s : PriceSnapshot) : SnapTable :=
  match lastRowByTs t k with
  | some last =>
    if |s.timestamp - last.timestamp| < 60 ∧
        |last.median_rate - s.median_rate| < 1 / 1000000 then t
    else t ++ [(k, s)]
  | none => t ++ [(k, s)]

/-- In-memory history plus its durable table. -/
structure HistState where
  hist : HistMap
  table : SnapTable
deriving Repr, DecidableEq

/-- `HistoricalCache.add_snapshot`: return early on an empty listing
list; compute best (= first listing's rate), arithmetic mean and median;
skip silently when the previous snapshot for the pair is younger than
60 s (`now - last.timestamp`, signed) with a median within `1e-6`;
otherwise append in memory (`_cleanup` is a no-op) and persist. -/
def add_snapshot (st : HistState) (k : PairKey) (listings : List ListingSummary)
    (now : ℚ) : HistState :=
  match listings with
  | [] => st
  | l0 :: _ =>
    let rates := listings.map (fun l => l.rate)
    let best_rate := l0.rate
    let avg_rate := rates.sum / (listings.length : ℚ)
    let median_rate := pyMedian rates
    let dup : Bool :=
      match (histGet st.hist k).getLast? with
      | some last =>
        decide (now - last.timestamp < 60 ∧ |last.median_rate - median_rate| < 1 / 1000000)
      | none => false
    if dup then st
    else
      let snap : PriceSnapshot := ⟨now, best_rate, avg_rate, median_rate, listings.length⟩
      ⟨histAppend st.hist k snap, save_snapshot st.table k snap⟩

/-- One element of `get_history`'s response list (timestamps are emitted
as ISO strings in the source; kept as the rational instant here). -/
structure HistOut where
  timestamp : ℚ
  median_rate : ℚ
  avg_rate : ℚ
  listing_count : ℕ
deriving Repr, DecidableEq

/-- Round half to even at integer precision. -/
def roundHalfEven (q : ℚ) : ℤ :=
  let f := ⌊q⌋
  let r := q - (f : ℚ)
  if r < 1 / 2 then f
  else if 1 / 2 < r then f + 1
  else if f % 2 = 0 then f else f + 1

/-- Python `round(x, d)` (banker's rounding), on the exact rational
value; double representation error is not modelled. -/
def pyRound (q : ℚ) (d : ℕ) : ℚ := (roundHalfEven (q * 10 ^ d) : ℚ) / 10 ^ d

/-- Even-stride downsampling `[l[i * len(l) // n] for i in range(n)]`.
The Python source computes the index as `int(i * (len/n))` in floats;
modelled as exact floor division (the spec's
`floor(i * len / maxPoints)`).  Indices are always in range at the call
sites (proved below), so the `get?`-based filterMap equals Python's
direct indexing. -/
def evenStride {α : Type} (l : List α) (n : ℕ) : List α :=
  ((List.range n).map (fun i => i * l.length / n)).filterMap (fun i => l.get? i)

/-- The snapshots inside the trailing 7-day window: the local
`snapshots = [s for s in ... if s.timestamp >= cutoff]` computed
identically by `get_history` and `get_trend`. -/
def inWindow (h : HistMap) (k : PairKey) (now : ℚ) : List PriceSnapshot :=
  (histGet h k).filter (fun s => decide (now - 7 * 86400 ≤ s.timestamp))

/-- `HistoricalCache.get_history`: restrict to the trailing 7-day
window, downsample when `max_points` is truthy and exceeded, format.
A negative `max_points` makes `range(max_points)` empty (`Int.toNat`
of a negative is 0 here), matching Python's empty result. -/
def get_history (h : HistMap) (k : PairKey) (max_points : Option Int) (now : ℚ) :
    List HistOut :=
  let snapshots := inWindow h k now
  let snapshots :=
    match max_points with
    | some n =>
      if ¬n = 0 ∧ n < (snapshots.length : Int) then evenStride snapshots n.toNat
      else snapshots
    | none => snapshots
  snapshots.map (fun s =>
    ⟨s.timestamp, pyRound s.median_rate 6, pyRound s.avg_rate 6, s.listing_count⟩)

/-- `get_trend`'s response dict. -/
structure TrendOut where
  direction : Chars
  change_percent : ℚ
  data_points : ℕ
  oldest : Option ℚ
  newest : Option ℚ
  sparkline : List ℚ
  lowest_median : Option ℚ
  highest_median : Option ℚ
deriving Repr, DecidableEq

/-- Replace the last element (`indices[-1] = len - 1` when it differs;
replacing an equal value is the same list).  Python would raise
`IndexError` on an empty index list — only possible with a sparkline
budget of 0, excluded by hypothesis where it matters. -/
def adjustLast : List ℕ → ℕ → List ℕ
  | [], _ => []
  | [_], v => [v]
  | x :: y :: xs, v => x :: adjustLast (y :: xs) v

/-- `range(0, len, w)`. -/
def chunkStarts (len w : ℕ) : List ℕ := (List.range ((len + w - 1) / w)).map (· * w)

/-- `HistoricalCache.get_trend`: 7-day window; under 2 points → flat
neutral result (whose sparkline is the best-rate series); otherwise
median-of-eighths change classification, a median-rate sparkline
downsampled to the point budget with the final index forced to
`len - 1`, and a coarse lowest/highest median envelope over
eighth-width chunks. -/
def get_trend (h : HistMap) (k : PairKey) (sparkline_points : ℕ) (now : ℚ) : TrendOut :=
  let snapshots := inWindow h k now
  if snapshots.length < 2 then
    ⟨"neutral".data, 0, snapshots.length, none, none,
     snapshots.map (fun s => s.best_rate), none, none⟩
  else
    let w := max 1 (snapshots.length / 8)
    let start_median := pyMedian ((snapshots.take w).map (fun s => s.median_rate))
    let end_median :=
      pyMedian ((snapshots.drop (snapshots.length - w)).map (fun s => s.median_rate))
    let change_percent :=
      if start_median = 0 then 0 else (end_median - start_median) / start_median * 100
    let direction :=
      if 2 < change_percent then "up".data
      else if change_percent < -2 then "down".data
      else "neutral".data
    let series := snapshots.map (fun s => s.median_rate)
    let series :=
      if sparkline_points < series.length then
        let len := series.length
        let idxs := adjustLast
          ((List.range sparkline_points).map (fun i => i * len / sparkline_points)) (len - 1)
        idxs.filterMap (fun i => series.get? i)
      else series
    let chunkMeds := (chunkStarts snapshots.length w).map
      (fun i => pyMedian (((snapshots.drop i).take w).map (fun s => s.median_rate)))
    ⟨direction, pyRound change_percent 2, snapshots.length,
     (snapshots.head?).map (fun s => s.timestamp),
     (snapshots.getLast?).map (fun s => s.timestamp),
     series, some (pyRound (pyMin chunkMeds) 6), some (pyRound (pyMax chunkMeds) 6)⟩

/-- The in-window median-rate series (`series` in `get_trend` before
downsampling). -/
def medianSeries (h : HistMap) (k : PairKey) (now : ℚ) : List ℚ :=
  (inWindow h k now).map (fun s => s.median_rate)

/-- The rows of the `price_snapshots` table belonging to one pair, in
insertion order. -/
def rowsFor (t : SnapTable) (k : PairKey) : List PriceSnapshot :=
  (t.filter (fun p => decide (p.1 = k))).map (fun p => p.2)

/-- Modelled from the spec's (amended) wording of the soft throttle: the
maximum, over parsed rules with `resetSeconds > 0`, `limit > 0`,
`current/limit >= softRatio` and `current < limit`, of
`clamp(resetSeconds * softSleepFactor, 0.2 s, 3 s)`.  Compared against
the implementation's fold in the C6 theorem. -/
def softDelaySpec (soft_ratio soft_sleep_factor : ℚ) (rules : List RuleState) : ℚ :=
  ((rules.filter (fun st => decide (0 < st.reset_s ∧ 0 < st.limit ∧
      soft_ratio ≤ (st.current : ℚ) / (st.limit : ℚ) ∧ st.current < st.limit))).map
    (fun st => min (max ((st.reset_s : ℚ) * soft_sleep_factor) 0.2) 3)).foldl max 0

/-!  ## Concrete fixtures used by counterexamples and witnesses  -/

def sampleKey : PairKey := ⟨"Standard".data, "divine".data, "chaos".data⟩

/-- A listing with the given rate (remaining fields immaterial). -/
def listingR (r : ℚ) : ListingSummary :=
  ⟨r, "divine".data, 1, "chaos".data, 1, none, none, none, none⟩

def sampleRow : CacheRow := ⟨sampleKey, [listingR 1], 100, 0⟩

/-- Response headers carrying `X-Rate-Limit-Ip-State: 45:300:3`. -/
def hdr45 : List (Chars × Chars) := [(("X-Rate-Limit-Ip-State").data, ("45:300:3").data)]

/-- Response headers carrying `X-Rate-Limit-Ip-State: 300:300:3`. -/
def hdr300 : List (Chars × Chars) := [(("X-Rate-Limit-Ip-State").data, ("300:300:3").data)]

/-- Response headers carrying `X-Rate-Limit-Ip-State: 4:5:0`. -/
def hdr450 : List (Chars × Chars) := [(("X-Rate-Limit-Ip-State").data, ("4:5:0").data)]

/-- A system whose cache holds one unexpired entry for `sampleKey`. -/
def witSys : Sys := ⟨[(sampleKey, ⟨[listingR 1], 100, 50⟩)], [], govInit⟩

/-- A system with an empty cache. -/
def emptySys : Sys := ⟨[], [], govInit⟩

/-- An upstream oracle that always fails (429/transport error). -/
def postFail : PostFn := fun g t => (g, t, none)

/-- An upstream oracle that succeeds immediately with one listing,
leaving the governor and clock unchanged. -/
def postOk : PostFn := fun g t => (g, t, some [listingR 1])

def emptyHist : HistState := ⟨[], []⟩

/-- A history holding one snapshot for `sampleKey` at t = 0. -/
def oneSnapHist : HistMap := [(sampleKey, [⟨0, 1, 1, 1, 1⟩])]

/-- A history holding three snapshots for `sampleKey` at t = 0, 1, 2
with medians 10, 20, 30. -/
def threeSnapHist : HistMap :=
  [(sampleKey, [⟨0, 1, 1, 10, 1⟩, ⟨1, 1, 1, 20, 1⟩, ⟨2, 1, 1, 30, 1⟩])]

/-- The snapshot `add_snapshot` builds for a non-empty listing list, as
the (amended) C7 claim words it: best = the first listing's rate,
arithmetic mean, median, listing count, at the current instant. -/
def claimSnap (l0 : ListingSummary) (ls : List ListingSummary) (now : ℚ) : PriceSnapshot :=
  ⟨now, l0.rate, ((l0 :: ls).map (fun l => l.rate)).sum / ((l0 :: ls).length : ℚ),
   pyMedian ((l0 :: ls).map (fun l => l.rate)), (l0 :: ls).length⟩

/-- The near-duplicate condition of C7: the pair's last stored snapshot
exists, is younger than 60 s, and its median is within `1e-6` of the
new median `md`. -/
def dupCond (st : HistState) (k : PairKey) (md now : ℚ) : Prop :=
  ∃ last, (histGet st.hist k).getLast? = some last ∧
    now - last.timestamp < 60 ∧ |last.median_rate - md| < 1 / 1000000

/-!  # Theorems

Shared helper lemmas first, then one theorem per claim (with its
counterexample/witness where required).  -/

/-- Looking up `k` after a replace-style insert finds the new entry. -/
theorem storeLookup_filterNe (s : CacheStore) (k : PairKey) (e : CacheEntry) :
    storeLookup (s.filter (fun p => decide (p.1 ≠ k)) ++ [(k, e)]) k = some e := by
  induction s with
  | nil => simp [storeLookup, List.find?]
  | cons p tl ih =>
    by_cases hp : p.1 = k
    · rw [show (p :: tl).filter (fun p => decide (p.1 ≠ k))
          = tl.filter (fun p => decide (p.1 ≠ k)) from by simp [hp]]
      exact ih
    · simp [storeLookup, List.find?, hp]

/-- Looking up `k` after `invalidate k` misses. -/
theorem storeLookup_invalidate (s : CacheStore) (k : PairKey) :
    storeLookup (cache_invalidate s k) k = none := by
  induction s with
  | nil => rfl
  | cons p tl ih =>
    by_cases hp : p.1 = k
    · rw [show cache_invalidate (p :: tl) k = cache_invalidate tl k from by
        simp [cache_invalidate, hp]]
      exact ih
    · simp [cache_invalidate, storeLookup, List.find?, hp]

/-- A cache hit short-circuits `fetch_listings_with_cache` completely. -/
theorem fetch_hit_eq (post : PostFn) (ttl : ℚ) (k : PairKey) (topN retries : ℕ)
    (sys : Sys) (now : ℚ) (ls : List ListingSummary) (fa : ℚ)
    (h : cache_get sys.store k now = some (ls, fa)) :
    fetch_listings_with_cache post ttl k topN retries sys now
      = (sys, ⟨some (ls.take topN), true, some fa⟩) := by
  unfold fetch_listings_with_cache
  rw [h]

/-- The retry loop always reports `was_cached = False`. -/
theorem fetchAttempts_wasCached (post : PostFn) (ttl : ℚ) (k : PairKey) (topN : ℕ) :
    ∀ (n : ℕ) (sys : Sys) (now : ℚ),
      (fetchAttempts post ttl k topN n sys now).2.wasCached = false := by
  intro n
  induction n with
  | zero => intro sys now; rfl
  | succ m ih =>
    intro sys now
    simp only [fetchAttempts]
    cases hr : (post sys.gov now).2.2 with
    | some ls => rfl
    | none => exact ih _ _

/-- A failed retry loop leaves the in-memory store untouched. -/
theorem fetchAttempts_fail_frame (post : PostFn) (ttl : ℚ) (k : PairKey) (topN : ℕ) :
    ∀ (n : ℕ) (sys : Sys) (now : ℚ),
      (fetchAttempts post ttl k topN n sys now).2.listings = none →
      (fetchAttempts post ttl k topN n sys now).1.store = sys.store := by
  intro n
  induction n with
  | zero => intro sys now _; rfl
  | succ m ih =>
    intro sys now h
    simp only [fetchAttempts] at h ⊢
    cases hr : (post sys.gov now).2.2 with
    | some ls => rw [hr] at h; simp at h
    | none => rw [hr] at h; exact ih _ _ h

/-- A successful retry loop returns the slice of some full listing set
`L` and leaves the cache holding `L` with `expires = fetched + ttl`. -/
theorem fetchAttempts_success (post : PostFn) (ttl : ℚ) (k : PairKey) (topN : ℕ) :
    ∀ (n : ℕ) (sys : Sys) (now t : ℚ),
      (fetchAttempts post ttl k topN n sys now).2.fetchedAt = some t →
      ∃ L : List ListingSummary,
        (fetchAttempts post ttl k topN n sys now).2.listings = some (L.take topN) ∧
        storeLookup (fetchAttempts post ttl k topN n sys now).1.store k
          = some ⟨L, t + ttl, t⟩ := by
  intro n
  induction n with
  | zero => intro sys now t h; simp [fetchAttempts] at h
  | succ m ih =>
    intro sys now t h
    simp only [fetchAttempts] at h ⊢
    cases hr : (post sys.gov now).2.2 with
    | some ls =>
      rw [hr] at h
      have ht : (post sys.gov now).2.1 = t := Option.some.inj h
      subst ht
      refine ⟨ls, rfl, ?_⟩
      show storeLookup
        (cache_set sys.store sys.table ttl k ls (post sys.gov now).2.1
          (post sys.gov now).2.1).1 k = _
      simp only [cache_set]
      exact storeLookup_filterNe _ _ _
    | none => rw [hr] at h; exact ih _ _ _ h

/-- C10: calling `add_snapshot` with an empty listing list is a silent
no-op — nothing is appended in memory, nothing is written to the
durable store, nothing is raised (the best/mean/median computations are
never reached). -/
theorem c10_add_snapshot_empty_noop (st : HistState) (k : PairKey) (now : ℚ) :
    add_snapshot st k [] now = st := rfl

/-- C1 (code bug, evaluated at the failing input): a durable store
holding one cache row that is not yet expired at reconstruction time
(`expires_at = 100 > 0 = now`).  `load_cache_entries` does deliver the
row, but `TradeCache._load_from_db` rebuilds it via a `CacheEntry(...)`
call that omits the required `fetched_at` field, so the `TypeError` is
swallowed by the blanket `except`: the reconstructed in-memory store is
empty (the written entry is lost) and the startup purge of expired rows
is never reached (the durable table is returned unchanged), contrary to
the claimed restart round-trip. -/
theorem c1_restart_roundtrip_lost :
    load_cache_entries [sampleRow] 0 = [(sampleKey, [listingR 1], 100)] ∧
    (0 : ℚ) < sampleRow.expires_at ∧
    tradeCache_load_from_db [sampleRow] 0 = ([], [sampleRow]) := by
  refine ⟨by decide, by decide, by decide⟩

/-- C2: a cache hit returns the cached listings sliced to `topN` with
`wasCached = true` and the entry's `fetchedAt`, and the whole system
state — in particular the Governor state (hard block, soft delay,
last-parsed rules) — is unchanged; the upstream oracle `post`
(which carries `waitBeforeRequest`/`onResponse`) is never invoked, as
witnessed by the result being independent of the universally
quantified `post`. -/
theorem c2_cache_hit_frame (post : PostFn) (ttl : ℚ) (k : PairKey) (topN retries : ℕ)
    (sys : Sys) (now : ℚ) (ls : List ListingSummary) (fa : ℚ)
    (h : cache_get sys.store k now = some (ls, fa)) :
    fetch_listings_with_cache post ttl k topN retries sys now
        = (sys, ⟨some (ls.take topN), true, some fa⟩) ∧
    (fetch_listings_with_cache post ttl k topN retries sys now).1.gov = sys.gov := by
  refine ⟨fetch_hit_eq post ttl k topN retries sys now ls fa h, ?_⟩
  rw [fetch_hit_eq post ttl k topN retries sys now ls fa h]

/-- Witness for C2 at a concrete hit (entry fetched at 50, expiring at
100, queried at 60 with an always-failing oracle). -/
theorem c2_cache_hit_frame_witness :
    cache_get witSys.store sampleKey 60 = some ([listingR 1], 50) ∧
    fetch_listings_with_cache postFail 900 sampleKey 5 2 witSys 60
      = (witSys, ⟨some [listingR 1], true, some 50⟩) ∧
    (fetch_listings_with_cache postFail 900 sampleKey 5 2 witSys 60).1.gov
      = witSys.gov := by
  have h : cache_get witSys.store sampleKey 60 = some ([listingR 1], 50) := by decide
  have hc := c2_cache_hit_frame postFail 900 sampleKey 5 2 witSys 60 [listingR 1] 50 h
  exact ⟨h, by simpa using hc.1, hc.2⟩

/-- C3: `fetch_listings_force` always reports `wasCached = false`; when
the upstream fails, the pair's entry stays invalidated (the lookup
misses); when it succeeds at instant `t` with full set `L`, it returns
`L.take topN` and a subsequent `fetch_listings_with_cache` for the same
pair at any instant inside the TTL window is a cache hit returning the
set just stored, sliced to the requested `topN`. -/
theorem c3_fetch_force_spec :
    (∀ (post : PostFn) (ttl : ℚ) (k : PairKey) (topN retries : ℕ) (sys : Sys) (now : ℚ),
      (fetch_listings_force post ttl k topN retries sys now).2.wasCached = false) ∧
    (∀ (post : PostFn) (ttl : ℚ) (k : PairKey) (topN retries : ℕ) (sys : Sys) (now : ℚ),
      (fetch_listings_force post ttl k topN retries sys now).2.listings = none →
      storeLookup (fetch_listings_force post ttl k topN retries sys now).1.store k = none) ∧
    (∀ (post : PostFn) (ttl : ℚ) (k : PairKey) (topN retries : ℕ) (sys : Sys) (now t : ℚ),
      (fetch_listings_force post ttl k topN retries sys now).2.fetchedAt = some t →
      ∃ L : List ListingSummary,
        (fetch_listings_force post ttl k topN retries sys now).2.listings
            = some (L.take topN) ∧
        ∀ (post2 : PostFn) (topN2 retries2 : ℕ) (now2 : ℚ), now2 < t + ttl →
          fetch_listings_with_cache post2 ttl k topN2 retries2
              (fetch_listings_force post ttl k topN retries sys now).1 now2
            = ((fetch_listings_force post ttl k topN retries sys now).1,
               ⟨some (L.take topN2), true, some t⟩)) := by
  refine ⟨?_, ?_, ?_⟩
  · intro post ttl k topN retries sys now
    exact fetchAttempts_wasCached post ttl k topN _ _ _
  · intro post ttl k topN retries sys now h
    have hs := fetchAttempts_fail_frame post ttl k topN (retries + 1)
      { sys with store := cache_invalidate sys.store k } now h
    unfold fetch_listings_force
    rw [hs]
    exact storeLookup_invalidate sys.store k
  · intro post ttl k topN retries sys now t h
    obtain ⟨L, hL, hlk⟩ := fetchAttempts_success post ttl k topN (retries + 1)
      { sys with store := cache_invalidate sys.store k } now t h
    refine ⟨L, hL, ?_⟩
    intro post2 topN2 retries2 now2 hnow2
    apply fetch_hit_eq
    unfold fetch_listings_force
    rw [cache_get, hlk]
    simp [hnow2]

/-- Witness for C3: a forced fetch that succeeds immediately at t = 0
with one listing (ttl = 900); re-fetching with cache at t = 10 hits and
returns the stored set. -/
theorem c3_fetch_force_spec_witness :
    (fetch_listings_force postOk 900 sampleKey 5 2 emptySys 0).2.wasCached = false ∧
    (fetch_listings_force postOk 900 sampleKey 5 2 emptySys 0).2.listings
      = some [listingR 1] ∧
    fetch_listings_with_cache postFail 900 sampleKey 3 2
        (fetch_listings_force postOk 900 sampleKey 5 2 emptySys 0).1 10
      = ((fetch_listings_force postOk 900 sampleKey 5 2 emptySys 0).1,
         ⟨some [listingR 1], true, some 0⟩) := by
  obtain ⟨w1, _, w3⟩ := c3_fetch_force_spec
  have hfa : (fetch_listings_force postOk 900 sampleKey 5 2 emptySys 0).2.fetchedAt
      = some 0 := by decide
  have hconc : (fetch_listings_force postOk 900 sampleKey 5 2 emptySys 0).2.listings
      = some [listingR 1] := by decide
  obtain ⟨L, hL, hsub⟩ := w3 postOk 900 sampleKey 5 2 emptySys 0 0 hfa
  have htake5 : L.take 5 = [listingR 1] :=
    (Option.some.inj (hconc.symm.trans hL)).symm
  have h3 : L.take 3 = [listingR 1] := by
    have hmin : (L.take 5).take 3 = L.take 3 := by
      rw [List.take_take]
      norm_num
    rw [← hmin, htake5]
    rfl
  have hhit := hsub postFail 3 2 10 (by norm_num)
  rw [h3] at hhit
  exact ⟨w1 postOk 900 sampleKey 5 2 emptySys 0, hconc, hhit⟩

/-- The `block_until` component of `on_response`, spelled out. -/
theorem on_response_block_until (g : GovState) (now : ℚ) (headers : List (Chars × Chars)) :
    (on_response g now headers).block_until
      = (collectParsed headers (ruleNames headers)).foldl (hardUpdate now)
          (retryAfterBlock g.block_until now headers) := rfl

/-- The `last_rules` component of `on_response`, spelled out. -/
theorem on_response_last_rules (g : GovState) (now : ℚ) (headers : List (Chars × Chars)) :
    (on_response g now headers).last_rules
      = (collectParsed headers (ruleNames headers)).flatten := rfl

/-- The `soft_delay_until` component of `on_response`, spelled out. -/
theorem on_response_soft (g : GovState) (now : ℚ) (headers : List (Chars × Chars)) :
    (on_response g now headers).soft_delay_until
      = (if 0 < softSleepCalc g.soft_ratio g.soft_sleep_factor 0
              (collectParsed headers (ruleNames headers)).flatten
         then now + softSleepCalc g.soft_ratio g.soft_sleep_factor 0
              (collectParsed headers (ruleNames headers)).flatten
         else 0) := rfl

/-- The `Retry-After` pass never lowers the block time. -/
theorem retryAfterBlock_le (bu now : ℚ) (headers : List (Chars × Chars)) :
    bu ≤ retryAfterBlock bu now headers := by
  unfold retryAfterBlock
  cases pyOrChars (headerGet headers retryAfterUC) (headerGet headers retryAfterLC) with
  | none => exact le_rfl
  | some s =>
    by_cases hs : s = []
    · simp [hs]
    · simp only [hs, if_false]
      cases pyInt? s with
      | none => exact le_rfl
      | some ra =>
        by_cases hra : 0 < ra
        · simp [hra, le_max_left]
        · simp [hra]

/-- The per-header hard pass never lowers the block time. -/
theorem hardUpdate_le (now : ℚ) (l : List RuleState) :
    ∀ bu : ℚ, bu ≤ hardUpdate now bu l := by
  induction l with
  | nil => intro bu; exact le_rfl
  | cons st tl ih =>
    intro bu
    rw [hardUpdate]
    refine le_trans ?_ (ih _)
    split_ifs with h1 h2
    · linarith
    · exact le_rfl
    · exact le_rfl

/-- A saturated rule inside one header forces the block time up to
`now + reset_s`. -/
theorem hardUpdate_mem (now : ℚ) (l : List RuleState) :
    ∀ (bu : ℚ) (st : RuleState), st ∈ l → st.limit ≤ st.current → 0 < st.reset_s →
      now + (st.reset_s : ℚ) ≤ hardUpdate now bu l := by
  induction l with
  | nil => intro bu st h; exact absurd h (List.not_mem_nil st)
  | cons a tl ih =>
    intro bu st hmem hcl hr
    rcases List.mem_cons.mp hmem with heq | htl
    · subst heq
      rw [hardUpdate]
      refine le_trans ?_ (hardUpdate_le now tl _)
      rw [if_pos ⟨hcl, hr⟩]
      split_ifs with h2
      · exact le_rfl
      · linarith
    · rw [hardUpdate]
      exact ih _ st htl hcl hr

/-- Folding the hard pass over every header never lowers the block time. -/
theorem chunksFold_le (now : ℚ) (chunks : List (List RuleState)) :
    ∀ bu : ℚ, bu ≤ chunks.foldl (hardUpdate now) bu := by
  induction chunks with
  | nil => intro bu; exact le_rfl
  | cons c cs ih =>
    intro bu
    rw [List.foldl_cons]
    exact le_trans (hardUpdate_le now c bu) (ih _)

/-- A saturated rule in any processed header forces the folded block
time up to `now + reset_s`. -/
theorem chunksFold_mem (now : ℚ) (chunks : List (List RuleState)) :
    ∀ (bu : ℚ) (st : RuleState), st ∈ chunks.flatten →
      st.limit ≤ st.current → 0 < st.reset_s →
      now + (st.reset_s : ℚ) ≤ chunks.foldl (hardUpdate now) bu := by
  induction chunks with
  | nil => intro bu st h; simp at h
  | cons c cs ih =>
    intro bu st hmem hcl hr
    rw [List.flatten_cons, List.mem_append] at hmem
    rw [List.foldl_cons]
    rcases hmem with hc | hcs
    · exact le_trans (hardUpdate_mem now c bu st hc hcl hr) (chunksFold_le now cs _)
    · exact ih _ st hcs hcl hr

/-- C4 (counterexample): from the initial Governor state, processing a
rule-state header holding exactly the triple `45:300:3` parses it
(`current = 45 < 300 = limit`), yet `blocked` stays false and
`blockRemaining` is already 0 — the claim asserts `blocked` becomes
true. -/
theorem c4_counterexample :
    (on_response govInit 0 hdr45).last_rules = [⟨ipName, 45, 300, 3⟩] ∧
    ¬ blocked (on_response govInit 0 hdr45) 0 ∧
    block_remaining (on_response govInit 0 hdr45) 0 = 0 := by
  have hbu : (on_response govInit 0 hdr45).block_until = 0 := by decide
  refine ⟨by decide, by decide, ?_⟩
  rw [block_remaining, hbu]
  norm_num

/-- C4 (amended): for a rule-state triple that actually saturates its
rule — `300:300:3`, `current = limit = 300`, reset 3 s — received at any
instant `t0 ≥ 0` in the initial state, `blocked` becomes true,
`blockRemaining` decreases monotonically as time advances, is positive
before `t0 + 3`, and is exactly 0 at and after 3 seconds. -/
theorem c4_amended_hard_block (t0 : ℚ) (h0 : 0 ≤ t0) :
    blocked (on_response govInit t0 hdr300) t0 ∧
    (on_response govInit t0 hdr300).last_rules = [⟨ipName, 300, 300, 3⟩] ∧
    (∀ t t' : ℚ, t ≤ t' →
      block_remaining (on_response govInit t0 hdr300) t'
        ≤ block_remaining (on_response govInit t0 hdr300) t) ∧
    (∀ t : ℚ, t0 + 3 ≤ t → block_remaining (on_response govInit t0 hdr300) t = 0) ∧
    (∀ t : ℚ, t < t0 + 3 → 0 < block_remaining (on_response govInit t0 hdr300) t) := by
  have hc : collectParsed hdr300 (ruleNames hdr300) = [[⟨ipName, 300, 300, 3⟩]] := by decide
  have hra : retryAfterBlock govInit.block_until t0 hdr300 = govInit.block_until := by
    unfold retryAfterBlock
    rw [show pyOrChars (headerGet hdr300 retryAfterUC) (headerGet hdr300 retryAfterLC)
        = none from by decide]
  have hbu : (on_response govInit t0 hdr300).block_until = t0 + 3 := by
    rw [on_response_block_until, hc, hra]
    show hardUpdate t0 govInit.block_until [⟨ipName, 300, 300, 3⟩] = t0 + 3
    rw [hardUpdate, hardUpdate]
    rw [if_pos (by constructor <;> decide)]
    rw [if_pos (by simp [govInit]; linarith)]
    norm_num
  refine ⟨?_, by rw [on_response_last_rules, hc]; rfl, ?_, ?_, ?_⟩
  · show t0 < (on_response govInit t0 hdr300).block_until
    rw [hbu]; linarith
  · intro t t' htt
    unfold block_remaining
    exact max_le_max le_rfl (by linarith)
  · intro t ht
    unfold block_remaining
    rw [hbu, max_eq_left (by linarith)]
  · intro t ht
    unfold block_remaining
    rw [hbu]
    exact lt_max_of_lt_right (by linarith)

/-- Witness for amended C4 at `t0 = 0`: blocked at receipt, remaining
monotone between t = 1 and t = 2, positive at t = 2, zero at t = 5. -/
theorem c4_amended_hard_block_witness :
    blocked (on_response govInit 0 hdr300) 0 ∧
    block_remaining (on_response govInit 0 hdr300) 2
      ≤ block_remaining (on_response govInit 0 hdr300) 1 ∧
    block_remaining (on_response govInit 0 hdr300) 5 = 0 ∧
    0 < block_remaining (on_response govInit 0 hdr300) 2 := by
  obtain ⟨hb, _, hmono, hz, hp⟩ := c4_amended_hard_block 0 le_rfl
  exact ⟨hb, hmono 1 2 (by norm_num), hz 5 (by norm_num), hp 2 (by norm_num)⟩

/-- C5: after any `on_response`, (i) `hardBlockUntil` never decreased
(Retry-After and rule passes only raise it via max), and (ii) for every
successfully parsed triple with `current >= limit` and
`resetSeconds > 0`, the post-call `hardBlockUntil` is at least
`now + resetSeconds` — i.e. at least the maximum over all such rules. -/
theorem c5_hard_block_monotone (g : GovState) (now : ℚ) (headers : List (Chars × Chars)) :
    g.block_until ≤ (on_response g now headers).block_until ∧
    ∀ st ∈ (on_response g now headers).last_rules,
      st.limit ≤ st.current → 0 < st.reset_s →
      now + (st.reset_s : ℚ) ≤ (on_response g now headers).block_until := by
  rw [on_response_block_until, on_response_last_rules]
  constructor
  · exact le_trans (retryAfterBlock_le g.block_until now headers)
      (chunksFold_le now _ _)
  · intro st hmem hcl hr
    exact chunksFold_mem now _ _ st hmem hcl hr

/-- Witness for C5 on the saturated header `300:300:3` at `now = 0`. -/
theorem c5_hard_block_monotone_witness :
    govInit.block_until ≤ (on_response govInit 0 hdr300).block_until ∧
    (0 : ℚ) + ((3 : Int) : ℚ) ≤ (on_response govInit 0 hdr300).block_until := by
  obtain ⟨h1, h2⟩ := c5_hard_block_monotone govInit 0 hdr300
  exact ⟨h1, h2 ⟨ipName, 300, 300, 3⟩ (by decide) (by decide) (by decide)⟩

/-- C6 (counterexample): header triple `4:5:0` parses to a rule with
`ratio = 4/5 ≥ 0.8 = softRatio` and `current < limit`, which the
claim's formula includes with `clamp(0 * 0.05, 0.2, 3) = 0.2`, so the
claimed recomputed delay would put `softDelayUntil` at
`now + 0.2 ≠ 0` — but the code skips every rule with
`resetSeconds <= 0` and leaves the soft delay at 0. -/
theorem c6_counterexample :
    (on_response govInit 0 hdr450).last_rules = [⟨ipName, 4, 5, 0⟩] ∧
    govInit.soft_ratio ≤ (4 : ℚ) / 5 ∧ (4 : Int) < 5 ∧
    min (max (((0 : Int) : ℚ) * govInit.soft_sleep_factor) 0.2) 3 = 0.2 ∧
    (on_response govInit 0 hdr450).soft_delay_until = 0 ∧
    (0 : ℚ) + min (max (((0 : Int) : ℚ) * govInit.soft_sleep_factor) 0.2) 3 ≠ 0 := by
  refine ⟨by decide, by norm_num [govInit], by norm_num, by norm_num [govInit],
    by decide, by norm_num [govInit]⟩

/-- The implementation's soft-throttle fold equals the specification
formulation (max of clamps over the qualifying rules), for any starting
accumulator. -/
theorem softSleepCalc_eq_spec (sr sf : ℚ) (rules : List RuleState) :
    ∀ acc : ℚ, softSleepCalc sr sf acc rules
      = ((rules.filter (fun st => decide (0 < st.reset_s ∧ 0 < st.limit ∧
            sr ≤ (st.current : ℚ) / (st.limit : ℚ) ∧ st.current < st.limit))).map
          (fun st => min (max ((st.reset_s : ℚ) * sf) 0.2) 3)).foldl max acc := by
  induction rules with
  | nil => intro acc; rfl
  | cons st tl ih =>
    intro acc
    rw [softSleepCalc]
    by_cases h1 : st.reset_s ≤ 0 ∨ st.limit ≤ 0
    · rw [if_pos h1]
      have hf : ¬(0 < st.reset_s ∧ 0 < st.limit ∧
          sr ≤ (st.current : ℚ) / (st.limit : ℚ) ∧ st.current < st.limit) := by
        rcases h1 with h | h
        · exact fun hP => absurd hP.1 (not_lt.mpr h)
        · exact fun hP => absurd hP.2.1 (not_lt.mpr h)
      rw [List.filter_cons, if_neg (by simpa using hf)]
      exact ih acc
    · rw [if_neg h1]
      push_neg at h1
      have hratio : st.ratio = (st.current : ℚ) / (st.limit : ℚ) := by
        unfold RuleState.ratio
        rw [if_neg (not_le.mpr h1.2)]
      by_cases h2 : sr ≤ st.ratio ∧ st.current < st.limit
      · rw [if_pos h2]
        have hP : 0 < st.reset_s ∧ 0 < st.limit ∧
            sr ≤ (st.current : ℚ) / (st.limit : ℚ) ∧ st.current < st.limit :=
          ⟨h1.1, h1.2, hratio ▸ h2.1, h2.2⟩
        rw [List.filter_cons, if_pos (by simpa using hP), List.map_cons, List.foldl_cons]
        exact ih _
      · rw [if_neg h2]
        have hf : ¬(0 < st.reset_s ∧ 0 < st.limit ∧
            sr ≤ (st.current : ℚ) / (st.limit : ℚ) ∧ st.current < st.limit) := by
          intro hP
          exact h2 ⟨hratio ▸ hP.2.2.1, hP.2.2.2⟩
        rw [List.filter_cons, if_neg (by simpa using hf)]
        exact ih acc

/-- Every clamp candidate is at most 3, so the fold stays at most 3. -/
theorem softSleepCalc_le_three (sr sf : ℚ) (rules : List RuleState) :
    ∀ acc : ℚ, acc ≤ 3 → softSleepCalc sr sf acc rules ≤ 3 := by
  induction rules with
  | nil => intro acc h; exact h
  | cons st tl ih =>
    intro acc h
    rw [softSleepCalc]
    apply ih
    split_ifs with h1 h2
    · exact h
    · exact max_le h (min_le_right _ _)
    · exact h

/-- Every clamp candidate is at least 0.2, so a positive fold is at
least 0.2. -/
theorem softSleepCalc_lb (sr sf : ℚ) (rules : List RuleState) :
    ∀ acc : ℚ, (0 < acc → 0.2 ≤ acc) →
      (0 < softSleepCalc sr sf acc rules → 0.2 ≤ softSleepCalc sr sf acc rules) := by
  induction rules with
  | nil => intro acc h; exact h
  | cons st tl ih =>
    intro acc h
    rw [softSleepCalc]
    apply ih
    split_ifs with h1 h2
    · exact h
    · intro _
      exact le_trans (le_min (le_max_right _ _) (by norm_num)) (le_max_right _ _)
    · exact h

/-- C6 (amended): on every `on_response` the soft delay is recomputed
from scratch (independent of the previous `softDelayUntil`) as the
maximum over parsed rules with `resetSeconds > 0`, `limit > 0`,
`current/limit >= softRatio` and `current < limit` of
`clamp(resetSeconds * softSleepFactor, 0.2 s, 3 s)` — when that maximum
is positive `softDelayUntil = now + max`, else 0, so the delay never
exceeds 3 seconds; the soft computation does not modify
`hardBlockUntil` (which is independent of the soft configuration), and
`blocked` ignores `softDelayUntil` entirely. -/
theorem c6_amended_soft_throttle (g : GovState) (now : ℚ)
    (headers : List (Chars × Chars)) :
    (∀ x : ℚ, (on_response { g with soft_delay_until := x } now headers).soft_delay_until
        = (on_response g now headers).soft_delay_until) ∧
    (on_response g now headers).soft_delay_until
      = (if 0 < softDelaySpec g.soft_ratio g.soft_sleep_factor
              (on_response g now headers).last_rules
         then now + softDelaySpec g.soft_ratio g.soft_sleep_factor
              (on_response g now headers).last_rules
         else 0) ∧
    ((on_response g now headers).soft_delay_until = 0 ∨
      (now + 0.2 ≤ (on_response g now headers).soft_delay_until ∧
       (on_response g now headers).soft_delay_until ≤ now + 3)) ∧
    (∀ sr sf : ℚ,
      (on_response { g with soft_ratio := sr, soft_sleep_factor := sf }
          now headers).block_until
        = (on_response g now headers).block_until) ∧
    (∀ t x : ℚ, blocked { g with soft_delay_until := x } t ↔ blocked g t) := by
  refine ⟨fun x => rfl, ?_, ?_, fun sr sf => rfl, fun t x => Iff.rfl⟩
  · rw [on_response_soft, on_response_last_rules]
    rw [show softDelaySpec g.soft_ratio g.soft_sleep_factor
          ((collectParsed headers (ruleNames headers)).flatten)
        = softSleepCalc g.soft_ratio g.soft_sleep_factor 0
          ((collectParsed headers (ruleNames headers)).flatten) from
      (softSleepCalc_eq_spec _ _ _ 0).symm]
  · rw [on_response_soft]
    by_cases hS : 0 < softSleepCalc g.soft_ratio g.soft_sleep_factor 0
        ((collectParsed headers (ruleNames headers)).flatten)
    · right
      rw [if_pos hS]
      have h1 := softSleepCalc_lb g.soft_ratio g.soft_sleep_factor
        ((collectParsed headers (ruleNames headers)).flatten) 0 (by norm_num) hS
      have h2 := softSleepCalc_le_three g.soft_ratio g.soft_sleep_factor
        ((collectParsed headers (ruleNames headers)).flatten) 0 (by norm_num)
      constructor <;> linarith
    · left
      rw [if_neg hS]

/-- Folding the latest-row step over a timestamp-sorted list starting
from its head yields the last element. -/
theorem foldLatest_sorted_aux :
    ∀ (tl : List PriceSnapshot) (a : PriceSnapshot),
      (∀ b ∈ tl, a.timestamp ≤ b.timestamp) →
      tl.Pairwise (fun x y => x.timestamp ≤ y.timestamp) →
      tl.foldl (fun acc p =>
          match acc with
          | none => some p
          | some q => if q.timestamp ≤ p.timestamp then some p else some q) (some a)
        = (a :: tl).getLast? := by
  intro tl
  induction tl with
  | nil => intro a _ _; rfl
  | cons b tl2 ih =>
    intro a hle hpair
    have hab : a.timestamp ≤ b.timestamp := hle b (List.mem_cons_self b tl2)
    rw [List.foldl_cons]
    simp only [hab, if_true]
    rw [List.pairwise_cons] at hpair
    rw [ih b hpair.1 hpair.2]
    rfl

/-- When the pair's table rows are timestamp-sorted, the
`ORDER BY timestamp DESC LIMIT 1` row is the last row. -/
theorem lastRowByTs_sorted (t : SnapTable) (k : PairKey)
    (hsort : (rowsFor t k).Pairwise (fun x y => x.timestamp ≤ y.timestamp)) :
    lastRowByTs t k = (rowsFor t k).getLast? := by
  unfold lastRowByTs rowsFor
  rw [show (t.filter (fun p => decide (p.1 = k))).foldl
      (fun acc p =>
        match acc with
        | none => some p.2
        | some q => if q.timestamp ≤ p.2.timestamp then some p.2 else some q) none
    = ((t.filter (fun p => decide (p.1 = k))).map (fun p => p.2)).foldl
      (fun acc s =>
        match acc with
        | none => some s
        | some q => if q.timestamp ≤ s.timestamp then some s else some q) none from by
      rw [List.foldl_map]]
  unfold rowsFor at hsort
  generalize hl : (t.filter (fun p => decide (p.1 = k))).map (fun p => p.2) = l at hsort ⊢
  cases l with
  | nil => rfl
  | cons a tl =>
    rw [List.foldl_cons]
    rw [List.pairwise_cons] at hsort
    exact foldLatest_sorted_aux tl a hsort.1 hsort.2

/-- C7 (counterexample): for the unsorted listing set with rates
`[5, 1]`, the appended snapshot stores `best_rate = 5` (the first
listing's rate) while the minimum rate is 1 — the claim's
"best = minimum rate" fails on listing sets the orchestrator has not
sorted. -/
theorem c7_counterexample :
    (histGet (add_snapshot emptyHist sampleKey [listingR 5, listingR 1] 0).hist
        sampleKey).map (fun s => s.best_rate) = [5] ∧
    pyMin ([listingR 5, listingR 1].map (fun l => l.rate)) = 1 ∧
    ((5 : ℚ) ≠ 1) := by
  refine ⟨by decide, by decide, by norm_num⟩

/-- C7 (amended): for a non-empty listing set, with the durable rows of
the pair in sync with the in-memory history and the history
timestamp-sorted, `add_snapshot` leaves both stores unchanged exactly
when the new median is within `1e-6` of the last stored snapshot's and
less than 60 s have elapsed; otherwise it appends the snapshot
(best = first listing's rate, arithmetic mean, median, count) to the
in-memory history and inserts the same row in the durable store. -/
theorem c7_amended_dedup (st : HistState) (k : PairKey) (l0 : ListingSummary)
    (ls : List ListingSummary) (now : ℚ)
    (hsync : rowsFor st.table k = histGet st.hist k)
    (hsorted : (histGet st.hist k).Pairwise (fun a b => a.timestamp ≤ b.timestamp)) :
    (dupCond st k (pyMedian ((l0 :: ls).map (fun l => l.rate))) now →
      add_snapshot st k (l0 :: ls) now = st) ∧
    (¬ dupCond st k (pyMedian ((l0 :: ls).map (fun l => l.rate))) now →
      (add_snapshot st k (l0 :: ls) now).hist
          = histAppend st.hist k (claimSnap l0 ls now) ∧
      (add_snapshot st k (l0 :: ls) now).table
          = st.table ++ [(k, claimSnap l0 ls now)]) := by
  have hrow : lastRowByTs st.table k = (histGet st.hist k).getLast? := by
    rw [lastRowByTs_sorted st.table k (by rw [hsync]; exact hsorted), hsync]
  cases hlast : (histGet st.hist k).getLast? with
  | none =>
    constructor
    · intro hdup
      obtain ⟨last, hl, _⟩ := hdup
      rw [hlast] at hl
      exact absurd hl (by simp)
    · intro _
      unfold add_snapshot
      simp only [hlast]
      refine ⟨rfl, ?_⟩
      show save_snapshot st.table k (claimSnap l0 ls now) = _
      unfold save_snapshot
      rw [hrow, hlast]
  | some last =>
    constructor
    · intro hdup
      obtain ⟨last', hl, h60, hmed⟩ := hdup
      rw [hlast] at hl
      have : last' = last := (Option.some.inj hl).symm
      subst this
      unfold add_snapshot
      simp only [hlast]
      rw [if_pos (by exact decide_eq_true ⟨h60, hmed⟩)]
    · intro hnd
      have hcond : ¬(now - last.timestamp < 60 ∧
          |last.median_rate - pyMedian ((l0 :: ls).map (fun l => l.rate))|
            < 1 / 1000000) := by
        intro hc
        exact hnd ⟨last, hlast, hc.1, hc.2⟩
      unfold add_snapshot
      simp only [hlast]
      rw [if_neg (by simpa using hcond)]
      refine ⟨rfl, ?_⟩
      show save_snapshot st.table k (claimSnap l0 ls now) = _
      unfold save_snapshot
      simp only [hrow, hlast]
      rw [if_neg ?hc]
      case hc =>
        intro hc
        apply hcond
        constructor
        · calc now - last.timestamp ≤ |now - last.timestamp| := le_abs_self _
            _ = |(claimSnap l0 ls now).timestamp - last.timestamp| := rfl
            _ < 60 := hc.1
        · exact hc.2

/-- Witness for amended C7: adding one listing to an empty history
(no previous snapshot, so no near-duplicate) appends to both stores. -/
theorem c7_amended_dedup_witness :
    rowsFor emptyHist.table sampleKey = histGet emptyHist.hist sampleKey ∧
    (add_snapshot emptyHist sampleKey [listingR 2] 0).hist
        = histAppend emptyHist.hist sampleKey (claimSnap (listingR 2) [] 0) ∧
    (add_snapshot emptyHist sampleKey [listingR 2] 0).table
        = emptyHist.table ++ [(sampleKey, claimSnap (listingR 2) [] 0)] := by
  have hsync : rowsFor emptyHist.table sampleKey = histGet emptyHist.hist sampleKey := rfl
  have hsorted : (histGet emptyHist.hist sampleKey).Pairwise
      (fun a b => a.timestamp ≤ b.timestamp) := List.Pairwise.nil
  have hnd : ¬ dupCond emptyHist sampleKey
      (pyMedian ([listingR 2].map (fun l => l.rate))) 0 := by
    rintro ⟨last, hl, _⟩
    simp [emptyHist, histGet] at hl
  have hr := (c7_amended_dedup emptyHist sampleKey (listingR 2) [] 0 hsync hsorted).2 hnd
  exact ⟨hsync, hr.1, hr.2⟩

/-- Stride indices stay inside the list. -/
theorem stride_lt (i n len : ℕ) (hi : i < n) (hlen : 0 < len) : i * len / n < len := by
  rw [Nat.div_lt_iff_lt_mul (by omega : 0 < n)]
  calc i * len < n * len := Nat.mul_lt_mul_of_lt_of_le hi le_rfl hlen
    _ = len * n := Nat.mul_comm n len

/-- Even-stride downsampling returns at most `n` elements. -/
theorem evenStride_length_le {α : Type} (l : List α) (n : ℕ) :
    (evenStride l n).length ≤ n := by
  unfold evenStride
  calc (((List.range n).map (fun i => i * l.length / n)).filterMap
          (fun i => l.get? i)).length
      ≤ ((List.range n).map (fun i => i * l.length / n)).length :=
        List.length_filterMap_le _ _
    _ = n := by rw [List.length_map, List.length_range]

/-- Even-stride downsampling only returns elements of the list. -/
theorem evenStride_subset {α : Type} (l : List α) (n : ℕ) :
    ∀ a ∈ evenStride l n, a ∈ l := by
  intro a ha
  unfold evenStride at ha
  obtain ⟨i, _, hget⟩ := List.mem_filterMap.mp ha
  exact List.get?_mem hget

/-- In a pairwise-related list, elements at indices `i ≤ j` are related
(for a reflexive relation). -/
theorem sorted_get_le {α : Type} (R : α → α → Prop) (hrefl : ∀ a, R a a)
    (l : List α) (hl : l.Pairwise R) (i j : ℕ) (a b : α) (hij : i ≤ j)
    (ha : l.get? i = some a) (hb : l.get? j = some b) : R a b := by
  obtain ⟨hi, ha'⟩ := List.get?_eq_some.mp ha
  obtain ⟨hj, hb'⟩ := List.get?_eq_some.mp hb
  rcases Nat.lt_or_ge i j with hlt | hge
  · have := List.pairwise_iff_get.mp hl ⟨i, hi⟩ ⟨j, hj⟩ hlt
    rw [ha', hb'] at this
    exact this
  · have : i = j := le_antisymm hij hge
    subst this
    rw [← ha', ← hb']
    exact hrefl _

/-- Selecting along a nondecreasing index list preserves pairwise order. -/
theorem filterMapGet_pairwise {α : Type} (R : α → α → Prop) (hrefl : ∀ a, R a a)
    (l : List α) (hl : l.Pairwise R) :
    ∀ is : List ℕ, is.Pairwise (· ≤ ·) →
      (is.filterMap (fun i => l.get? i)).Pairwise R := by
  intro is
  induction is with
  | nil => intro _; exact List.Pairwise.nil
  | cons i tl ih =>
    intro hp
    rw [List.pairwise_cons] at hp
    rw [List.filterMap_cons]
    cases hgi : l.get? i with
    | none => exact ih hp.2
    | some a =>
      refine List.Pairwise.cons ?_ (ih hp.2)
      intro b hb
      obtain ⟨j, hj, hgj⟩ := List.mem_filterMap.mp hb
      exact sorted_get_le R hrefl l hl i j a b (hp.1 j hj) hgi hgj

/-- The stride index list is nondecreasing. -/
theorem range_stride_mono (n len : ℕ) :
    ((List.range n).map (fun i => i * len / n)).Pairwise (· ≤ ·) := by
  refine List.Pairwise.map _ ?_ (List.pairwise_lt_range n)
  intro i j hij
  exact Nat.div_le_div_right (Nat.mul_le_mul_right len (le_of_lt hij))

/-- `get_history` with a `some` bound, with the lets resolved. -/
theorem get_history_eq (h : HistMap) (k : PairKey) (n : Int) (now : ℚ) :
    get_history h k (some n) now
      = ((if ¬n = 0 ∧ n < ((inWindow h k now).length : Int)
          then evenStride (inWindow h k now) n.toNat
          else inWindow h k now).map
          (fun s => ⟨s.timestamp, pyRound s.median_rate 6, pyRound s.avg_rate 6,
                     s.listing_count⟩)) := rfl

/-- C8 (counterexample): `maxPoints = 0` is falsy in Python, so the
downsampling branch is skipped entirely and a one-snapshot window comes
back with 1 point — more than the claimed bound of at most 0 points. -/
theorem c8_counterexample :
    (get_history oneSnapHist sampleKey (some 0) 0).length = 1 ∧
    ¬ ((get_history oneSnapHist sampleKey (some 0) 0).length ≤ 0) := by
  have hw : inWindow oneSnapHist sampleKey 0 = [⟨0, 1, 1, 1, 1⟩] := by
    unfold inWindow
    norm_num [oneSnapHist, histGet, List.find?, List.filter]
  have hlen : (get_history oneSnapHist sampleKey (some 0) 0).length = 1 := by
    rw [get_history_eq, if_neg (by norm_num), hw]
    rfl
  exact ⟨hlen, by omega⟩

/-- C8 (amended): for every positive `maxPoints = n` and
timestamp-sorted stored history, `get_history` returns at most `n`
points, in nondecreasing timestamp order, all within the trailing
7-day window, and — whenever the in-window count exceeds `n` — selected
exactly by the even-stride indices `floor(i * len / n)`, `i ∈ [0, n)`.
(The function reads the store without returning a modified one: in this
embedding it cannot mutate the history.) -/
theorem c8_amended_get_history (h : HistMap) (k : PairKey) (n : Int) (now : ℚ)
    (hn : 0 < n)
    (hsorted : (histGet h k).Pairwise (fun a b => a.timestamp ≤ b.timestamp)) :
    (get_history h k (some n) now).length ≤ n.toNat ∧
    (get_history h k (some n) now).Pairwise (fun a b => a.timestamp ≤ b.timestamp) ∧
    (∀ o ∈ get_history h k (some n) now, now - 7 * 86400 ≤ o.timestamp) ∧
    (n < ((inWindow h k now).length : Int) →
      get_history h k (some n) now
        = (evenStride (inWindow h k now) n.toNat).map
            (fun s => ⟨s.timestamp, pyRound s.median_rate 6, pyRound s.avg_rate 6,
                       s.listing_count⟩)) := by
  have hwsorted : (inWindow h k now).Pairwise (fun a b => a.timestamp ≤ b.timestamp) :=
    hsorted.filter _
  have hwmem : ∀ s ∈ inWindow h k now, now - 7 * 86400 ≤ s.timestamp := by
    intro s hs
    exact of_decide_eq_true (List.mem_filter.mp hs).2
  have hne : ¬ n = 0 := by omega
  by_cases hover : n < ((inWindow h k now).length : Int)
  · have hbranch : get_history h k (some n) now
        = (evenStride (inWindow h k now) n.toNat).map
            (fun s => ⟨s.timestamp, pyRound s.median_rate 6, pyRound s.avg_rate 6,
                       s.listing_count⟩) := by
      rw [get_history_eq, if_pos ⟨hne, hover⟩]
    refine ⟨?_, ?_, ?_, fun _ => hbranch⟩
    · rw [hbranch, List.length_map]
      exact evenStride_length_le _ _
    · rw [hbranch]
      have hsel := filterMapGet_pairwise (fun a b => a.timestamp ≤ b.timestamp)
        (fun a => le_refl a.timestamp) (inWindow h k now) hwsorted
        ((List.range n.toNat).map (fun i => i * (inWindow h k now).length / n.toNat))
        (range_stride_mono _ _)
      exact hsel.map _ (fun a b hab => hab)
    · intro o ho
      rw [hbranch] at ho
      obtain ⟨s, hs, rfl⟩ := List.mem_map.mp ho
      exact hwmem s (evenStride_subset _ _ s hs)
  · have hbranch : get_history h k (some n) now
        = (inWindow h k now).map
            (fun s => ⟨s.timestamp, pyRound s.median_rate 6, pyRound s.avg_rate 6,
                       s.listing_count⟩) := by
      rw [get_history_eq, if_neg (fun hc => hover hc.2)]
    refine ⟨?_, ?_, ?_, fun hc => absurd hc hover⟩
    · rw [hbranch, List.length_map]
      omega
    · rw [hbranch]
      exact hwsorted.map _ (fun a b hab => hab)
    · intro o ho
      rw [hbranch] at ho
      obtain ⟨s, hs, rfl⟩ := List.mem_map.mp ho
      exact hwmem s hs

/-- The three-snapshot fixture's stored history, evaluated. -/
theorem histGet_threeSnap : histGet threeSnapHist sampleKey
    = [⟨0, 1, 1, 10, 1⟩, ⟨1, 1, 1, 20, 1⟩, ⟨2, 1, 1, 30, 1⟩] := by decide

/-- The three-snapshot fixture's 7-day window at t = 2 keeps all rows. -/
theorem inWindow_threeSnap : inWindow threeSnapHist sampleKey 2
    = [⟨0, 1, 1, 10, 1⟩, ⟨1, 1, 1, 20, 1⟩, ⟨2, 1, 1, 30, 1⟩] := by
  unfold inWindow
  rw [histGet_threeSnap]
  norm_num [List.filter_cons]

/-- Witness for amended C8: three in-window snapshots downsampled to
`maxPoints = 2`. -/
theorem c8_amended_get_history_witness :
    (get_history threeSnapHist sampleKey (some 2) 2).length ≤ (2 : Int).toNat ∧
    (get_history threeSnapHist sampleKey (some 2) 2).Pairwise
      (fun a b => a.timestamp ≤ b.timestamp) ∧
    (∀ o ∈ get_history threeSnapHist sampleKey (some 2) 2,
      (2 : ℚ) - 7 * 86400 ≤ o.timestamp) ∧
    get_history threeSnapHist sampleKey (some 2) 2
      = (evenStride (inWindow threeSnapHist sampleKey 2) (2 : Int).toNat).map
          (fun s => ⟨s.timestamp, pyRound s.median_rate 6, pyRound s.avg_rate 6,
                     s.listing_count⟩) := by
  obtain ⟨h1, h2, h3, h4⟩ := c8_amended_get_history threeSnapHist sampleKey 2 2
    (by norm_num) (by rw [histGet_threeSnap]; norm_num)
  exact ⟨h1, h2, h3, h4 (by rw [inWindow_threeSnap]; norm_num)⟩

theorem adjustLast_mem (v : ℕ) :
    ∀ (is : List ℕ) (i : ℕ), i ∈ adjustLast is v → i ∈ is ∨ i = v := by
  intro is
  induction is with
  | nil => intro i h; exact absurd h (List.not_mem_nil i)
  | cons x tl ih =>
    intro i h
    cases tl with
    | nil =>
      rw [adjustLast] at h
      rcases List.mem_singleton.mp h with rfl
      exact Or.inr rfl
    | cons y tl2 =>
      rw [adjustLast] at h
      rcases List.mem_cons.mp h with rfl | h2
      · exact Or.inl (List.mem_cons_self _ _)
      · rcases ih i h2 with h3 | h3
        · exact Or.inl (List.mem_cons_of_mem _ h3)
        · exact Or.inr h3

theorem adjustLast_ne_nil (v : ℕ) :
    ∀ is : List ℕ, is ≠ [] → adjustLast is v ≠ [] := by
  intro is
  cases is with
  | nil => intro h; exact absurd rfl h
  | cons x tl =>
    intro _
    cases tl with
    | nil => simp [adjustLast]
    | cons y tl2 => simp [adjustLast]

/-- After the `indices[-1] = len - 1` adjustment, the last index is
`v = len - 1`. -/
theorem adjustLast_getLast (v : ℕ) :
    ∀ is : List ℕ, is ≠ [] → (adjustLast is v).getLast? = some v := by
  intro is
  induction is with
  | nil => intro h; exact absurd rfl h
  | cons x tl ih =>
    intro _
    cases tl with
    | nil => rfl
    | cons y tl2 =>
      rw [adjustLast]
      cases h2 : adjustLast (y :: tl2) v with
      | nil => exact absurd h2 (adjustLast_ne_nil v (y :: tl2) (by simp))
      | cons a as =>
        rw [List.getLast?_cons_cons, ← h2]
        exact ih (by simp)

/-- With all indices in range, `filterMap get?` is a plain `map`. -/
theorem filterMapGet_eq_map_getD (l : List ℚ) :
    ∀ is : List ℕ, (∀ i ∈ is, i < l.length) →
      is.filterMap (fun i => l.get? i) = is.map (fun i => l.getD i 0) := by
  intro is
  induction is with
  | nil => intro _; rfl
  | cons i tl ih =>
    intro hv
    have hi : i < l.length := hv i (List.mem_cons_self _ _)
    rw [List.filterMap_cons, List.map_cons]
    rw [List.get?_eq_get hi]
    rw [ih (fun j hj => hv j (List.mem_cons_of_mem _ hj))]
    simp [List.getD_eq_getElem?_getD, List.getElem?_eq_getElem hi, List.get_eq_getElem]

theorem getD_last (l : List ℚ) (hne : 0 < l.length) :
    l.getLast? = some (l.getD (l.length - 1) 0) := by
  rw [List.getLast?_eq_getElem?]
  rw [List.getElem?_eq_getElem (by omega)]
  simp [List.getD_eq_getElem?_getD,
    List.getElem?_eq_getElem (show l.length - 1 < l.length by omega)]

/-- The sparkline field of `get_trend` in the ≥ 2-snapshot branch. -/
theorem get_trend_sparkline (h : HistMap) (k : PairKey) (P : ℕ) (now : ℚ)
    (h2 : ¬ (inWindow h k now).length < 2) :
    (get_trend h k P now).sparkline
      = (if P < (medianSeries h k now).length then
           (adjustLast ((List.range P).map
               (fun i => i * (medianSeries h k now).length / P))
             ((medianSeries h k now).length - 1)).filterMap
             (fun i => (medianSeries h k now).get? i)
         else medianSeries h k now) := by
  simp only [get_trend]
  rw [if_neg h2]
  rfl

/-- C9: whenever the in-window snapshot count exceeds the (positive)
sparkline point budget, the sparkline `get_trend` returns is the
median-rate series sampled at the even-stride indices with the last
index adjusted to `len - 1`, and therefore its last element is exactly
the latest in-window median. -/
theorem c9_sparkline_last_point (h : HistMap) (k : PairKey) (P : ℕ) (now : ℚ)
    (hP : 1 ≤ P) (hover : P < (inWindow h k now).length) :
    (get_trend h k P now).sparkline
      = (adjustLast ((List.range P).map
          (fun i => i * (medianSeries h k now).length / P))
          ((medianSeries h k now).length - 1)).map
          (fun i => (medianSeries h k now).getD i 0) ∧
    (get_trend h k P now).sparkline.getLast? = (medianSeries h k now).getLast? := by
  have hlen : (medianSeries h k now).length = (inWindow h k now).length :=
    List.length_map _ _
  have h2 : ¬ (inWindow h k now).length < 2 := by omega
  have hover' : P < (medianSeries h k now).length := by omega
  have hvalid : ∀ i ∈ adjustLast ((List.range P).map
      (fun i => i * (medianSeries h k now).length / P))
      ((medianSeries h k now).length - 1), i < (medianSeries h k now).length := by
    intro i hi
    rcases adjustLast_mem _ _ i hi with hm | hv
    · obtain ⟨j, hj, rfl⟩ := List.mem_map.mp hm
      exact stride_lt j P _ (List.mem_range.mp hj) (by omega)
    · omega
  have hs := get_trend_sparkline h k P now h2
  rw [if_pos hover'] at hs
  have hmap := filterMapGet_eq_map_getD (medianSeries h k now) _ hvalid
  refine ⟨by rw [hs, hmap], ?_⟩
  rw [hs, hmap, List.getLast?_map]
  rw [adjustLast_getLast _ _ (by
    have hlr : ((List.range P).map
        (fun i => i * (medianSeries h k now).length / P)).length = P := by
      rw [List.length_map, List.length_range]
    intro hnil
    rw [hnil] at hlr
    simp at hlr
    omega)]
  rw [getD_last (medianSeries h k now) (by omega)]
  rfl

/-- Witness for C9: three in-window snapshots against a point budget of
2 — the sparkline ends on the latest median. -/
theorem c9_sparkline_last_point_witness :
    (get_trend threeSnapHist sampleKey 2 2).sparkline
      = (adjustLast ((List.range 2).map
          (fun i => i * (medianSeries threeSnapHist sampleKey 2).length / 2))
          ((medianSeries threeSnapHist sampleKey 2).length - 1)).map
          (fun i => (medianSeries threeSnapHist sampleKey 2).getD i 0) ∧
    (get_trend threeSnapHist sampleKey 2 2).sparkline.getLast?
      = (medianSeries threeSnapHist sampleKey 2).getLast? := by
  exact c9_sparkline_last_point threeSnapHist sampleKey 2 2 (by norm_num)
    (by rw [inWindow_threeSnap]; norm_num)

end PoeFlip
